import Mathlib

/-!
# Verification of `std::experimental::rational`

Shallow embedding of `include/std/experimental/rational.hpp`.

The C++ class `rational<type>` is a pair of integers kept in canonical
form.  The integral template parameter `type` is modelled as the
unbounded integers `ℤ`; base-type overflow is an inherited limitation of
the library and is out of scope here.  C++ integer division truncates
toward zero; everywhere the source divides, the division is either exact
(division by a common divisor, where every rounding convention agrees)
or modelled explicitly with `Int.tdiv`, the truncating division.

A member function that can throw `std::domain_error` is modelled as a
function into `Except`; for mutating members the error payload carries,
besides the message, the observable field state of the object at the
moment the exception propagates, so that exception-safety statements can
be expressed.
-/

set_option maxRecDepth 8000

namespace RationalSpec

/-- The data of `rational<type>`: the two fields `numerator_` and
`denominator_` (named `num` and `den` here), with `type` modelled as `ℤ`. -/
structure Rational where
  num : Int
  den : Int
  deriving DecidableEq, Repr

/-- The canonical-form invariant stated in the header's comment block:
the denominator is strictly positive and the numerator and denominator
are co-prime. -/
def isCanonical (r : Rational) : Prop :=
  0 < r.den ∧ Int.gcd r.num r.den = 1

instance (r : Rational) : Decidable (isCanonical r) :=
  decidable_of_iff (0 < r.den ∧ Int.gcd r.num r.den = 1) Iff.rfl

/-- `rational::canonize`: divide both fields by `std::gcd(numerator_,
denominator_)` (non-negative gcd of the absolute values, and the
divisions are exact, so the C++ truncating division agrees with `/`),
then negate both fields if the denominator came out negative. -/
def canonize (r : Rational) : Rational :=
  let g : Int := Int.gcd r.num r.den
  let n := r.num / g
  let d := r.den / g
  if d < 0 then ⟨-n, -d⟩ else ⟨n, d⟩

/-- The exact rational number a `Rational` denotes (`evaluate` with an
exact result type). -/
def ratVal (r : Rational) : ℚ :=
  (r.num : ℚ) / (r.den : ℚ)

/-- The two-argument constructor `rational(numerator, denominator)`:
throws `"Denominator can not be zero."` on a zero denominator, otherwise
stores the pair and canonizes. -/
def ratMk (n d : Int) : Except String Rational :=
  if d = 0 then .error "Denominator can not be zero."
  else .ok (canonize ⟨n, d⟩)

/-- Result type of a throwing mutating member: on error the carried
`Rational` is the field state of `*this` when the exception leaves the
member function. -/
abbrev MutResult := Except (String × Rational) Rational

/-- `operator=(const type&)`: numerator set to the integer, denominator
to one, no canonize call (none is needed). -/
def assignInt (v : Int) : Rational := ⟨v, 1⟩

/-- The `numerator(value)` setter: overwrite the numerator, canonize. -/
def setNumerator (r : Rational) (v : Int) : Rational :=
  canonize ⟨v, r.den⟩

/-- The `denominator(value)` setter: rejects zero before any mutation,
then overwrites the denominator and canonizes. -/
def setDenominator (r : Rational) (v : Int) : MutResult :=
  if v = 0 then .error ("Denominator can not be zero.", r)
  else .ok (canonize ⟨r.num, v⟩)

/-- `assign(numerator, denominator)`: rejects a zero denominator before
any mutation, then overwrites both fields and canonizes. -/
def assign (r : Rational) (n d : Int) : MutResult :=
  if d = 0 then .error ("Denominator can not be zero.", r)
  else .ok (canonize ⟨n, d⟩)

/-- `operator+=(const rational&)`: raw combination `(ad + bc) / bd`,
then canonize. -/
def addRat (a b : Rational) : Rational :=
  canonize ⟨a.num * b.den + a.den * b.num, a.den * b.den⟩

/-- `operator-=(const rational&)`: raw combination `(ad - bc) / bd`,
then canonize. -/
def subRat (a b : Rational) : Rational :=
  canonize ⟨a.num * b.den - a.den * b.num, a.den * b.den⟩

/-- `operator*=(const rational&)`: raw combination `ac / bd`, then
canonize. -/
def mulRat (a b : Rational) : Rational :=
  canonize ⟨a.num * b.num, a.den * b.den⟩

/-- `operator/=(const rational&)`: throws `"Division by zero."` when the
divisor's numerator is zero, before touching the fields; otherwise raw
combination `ad / bc`, then canonize. -/
def divRat (a b : Rational) : MutResult :=
  if b.num = 0 then .error ("Division by zero.", a)
  else .ok (canonize ⟨a.num * b.den, a.den * b.num⟩)

/-- `operator+=(const type&)`: `numerator_ += that * denominator_`;
no canonize call. -/
def addInt (a : Rational) (c : Int) : Rational :=
  ⟨a.num + c * a.den, a.den⟩

/-- `operator-=(const type&)`: `numerator_ -= that * denominator_`;
no canonize call. -/
def subInt (a : Rational) (c : Int) : Rational :=
  ⟨a.num - c * a.den, a.den⟩

/-- `operator*=(const type&)`: `numerator_ *= that`, then canonize. -/
def mulInt (a : Rational) (c : Int) : Rational :=
  canonize ⟨a.num * c, a.den⟩

/-- `operator/=(const type&)`: throws `"Division by zero."` on a zero
argument before touching the fields; otherwise `denominator_ *= that`,
then canonize. -/
def divInt (a : Rational) (c : Int) : MutResult :=
  if c = 0 then .error ("Division by zero.", a)
  else .ok (canonize ⟨a.num, a.den * c⟩)

/-- Pre-increment `operator++`: `numerator_ += denominator_`; no
canonize call.  Post-increment returns a copy of the old value and
delegates to this. -/
def incr (a : Rational) : Rational := ⟨a.num + a.den, a.den⟩

/-- Pre-decrement `operator--`: `numerator_ -= denominator_`; no
canonize call.  Post-decrement returns a copy of the old value and
delegates to this. -/
def decr (a : Rational) : Rational := ⟨a.num - a.den, a.den⟩

/-- Unary `operator~` (invert): `return {denominator_, numerator_};`.
List-initialization of the returned `rational` selects the two-argument
constructor, so the swapped pair goes through that constructor's
zero-denominator check and canonize call. -/
def invert (a : Rational) : Except String Rational :=
  ratMk a.den a.num

/-- Unary `operator-`: `return {-numerator_, denominator_};`, again
through the two-argument constructor. -/
def negRat (a : Rational) : Except String Rational :=
  ratMk (-a.num) a.den

/-- A finite nonzero IEEE-754 double, modelled as the pair produced by
the decomposition at the head of `assign(const that_type&)` for
`that_type = double` (`mantissa = 53`, `maximum_exponent = 1024`):
`m` is `frexp`'s significand scaled by `2^53` (an integer with
`2^52 ≤ |m| < 2^53`, computed exactly since the significand has 53
bits), and `e` is `frexp`'s binary exponent minus 53, so the value of
the double is exactly `m * 2^e`.  The range constraints of `Fp.wf`
are those satisfied by every finite nonzero double; `assign`'s
`isfinite` check precedes this decomposition and is outside this model,
which only represents finite inputs. -/
structure Fp where
  m : Int
  e : Int
  deriving DecidableEq, Repr

/-- Exact real (here: rational) value of the modelled double. -/
def Fp.val (f : Fp) : ℚ :=
  (f.m : ℚ) * (2 : ℚ) ^ f.e

/-- Range constraints satisfied by the decomposition of every finite
nonzero double: a 53-bit normalized scaled significand, the exponent
range of doubles shifted by the mantissa width, and for values below
the subnormal threshold the trailing-zero condition that makes
`m * 2^e` representable. -/
def Fp.wf (f : Fp) : Prop :=
  2 ^ 52 ≤ f.m.natAbs ∧ f.m.natAbs < 2 ^ 53 ∧
    -1126 ≤ f.e ∧ f.e ≤ 971 ∧
    (f.e < -1074 → ((2 : Int) ^ (-1074 - f.e).toNat ∣ f.m))

instance (f : Fp) : Decidable (Fp.wf f) := by
  unfold Fp.wf; infer_instance

/-- `assign(const that_type&)` after the `frexp` decomposition, for
`that_type = double` and `type` modelled as `ℤ`.  The code first
overwrites `numerator_ := m` and `denominator_ := 1`, then scales:
for a positive adjusted exponent it multiplies the numerator by
`2^exponent`; for a negative one whose magnitude reaches
`maximum_exponent - 1 = 1023` it divides the numerator (C++ truncating
division, hence `Int.tdiv`) by the excess power and multiplies the
denominator by `2^1023`, throwing if the numerator was driven to zero —
note both fields have already been overwritten at that throw; otherwise
it multiplies the denominator by `2^|exponent|`.  Every surviving path
ends in `assign(numerator_, denominator_)`.  All the `std::exp2` calls
and casts involved are exact in the modelled range. -/
def assignFp (self : Rational) (f : Fp) : MutResult :=
  if 0 < f.e then
    assign ⟨f.m * 2 ^ f.e.toNat, 1⟩ (f.m * 2 ^ f.e.toNat) 1
  else if f.e < 0 then
    if 1023 ≤ -f.e then
      if Int.tdiv f.m (2 ^ (-f.e - 1023).toNat) = 0 then
        .error ("Value evaluates to zero due to being too small.",
          ⟨Int.tdiv f.m (2 ^ (-f.e - 1023).toNat), 2 ^ 1023⟩)
      else
        assign ⟨Int.tdiv f.m (2 ^ (-f.e - 1023).toNat), 2 ^ 1023⟩
          (Int.tdiv f.m (2 ^ (-f.e - 1023).toNat)) (2 ^ 1023)
    else
      assign ⟨f.m, 2 ^ (-f.e).toNat⟩ f.m (2 ^ (-f.e).toNat)
  else
    assign ⟨f.m, 1⟩ f.m 1

/-- `self` is ignored by `assignFp`: the member overwrites both fields
unconditionally before it can throw the underflow error.  (The `self`
parameter documents the pre-call state for exception-safety
statements.) -/
theorem assignFp_ignores_self (r s : Rational) (f : Fp) :
    assignFp r f = assignFp s f := rfl

/-- Models `static_cast<type>(std::pow(n, p))` on integer arguments
`n`, `p`, assuming the floating-point power routine returns the
mathematically exact result whenever that result is exactly
representable in a double (in particular for results of magnitude at
most `2^53`, and for the sub-unit results `|n|^p < 1` arising from a
negative power, which the conversion to the integer type then truncates
toward zero).  `std::pow(0, p)` for negative `p` is infinite and its
integer conversion has no defined result; the model returns `0` there
and no theorem evaluates that case. -/
def cppPow (n p : Int) : Int :=
  if 0 ≤ p then n ^ p.toNat
  else if n = 1 then 1
  else if n = -1 then (if 2 ∣ p then 1 else -1)
  else 0

/-- Free function `pow`: `{std::pow(value.numerator(), power),
std::pow(value.denominator(), power)}`, list-initialized through the
two-argument constructor (zero-denominator check plus canonize). -/
def pow (v : Rational) (p : Int) : Except String Rational :=
  ratMk (cppPow v.num p) (cppPow v.den p)

/-- C++ `operator<=>` on the base integer type: `std::strong_ordering`
by value. -/
def cmp3 (x y : Int) : Ordering :=
  if x < y then .lt else if x = y then .eq else .gt

/-- `operator<=>(const rational&)`: short-circuit to `equal` when
field-wise `operator==` holds, else compare the cross products
`numerator_ * that.denominator_` and `denominator_ * that.numerator_`. -/
def ratCmp (a b : Rational) : Ordering :=
  if a = b then .eq else cmp3 (a.num * b.den) (a.den * b.num)

/-! ## Core lemmas about `canonize` -/

theorem canonize_canonical {r : Rational} (hd : r.den ≠ 0) :
    isCanonical (canonize r) := by
  have hg : Int.gcd r.num r.den ≠ 0 := fun h => hd (Int.gcd_eq_zero_iff.mp h).2
  have hgz : (Int.gcd r.num r.den : Int) ≠ 0 := Int.natCast_ne_zero.mpr hg
  have hpos : 0 < Int.gcd r.num r.den := Nat.pos_of_ne_zero hg
  have hcop : Int.gcd (r.num / Int.gcd r.num r.den)
      (r.den / Int.gcd r.num r.den) = 1 := Int.gcd_div_gcd_div_gcd hpos
  have hdvd : (Int.gcd r.num r.den : Int) * (r.den / Int.gcd r.num r.den)
      = r.den := Int.mul_ediv_cancel' Int.gcd_dvd_right
  have hdz : r.den / (Int.gcd r.num r.den : Int) ≠ 0 := by
    intro h0
    rw [h0, mul_zero] at hdvd
    exact hd hdvd.symm
  unfold canonize isCanonical
  dsimp only
  split
  · next h =>
    constructor
    · show 0 < -(r.den / (Int.gcd r.num r.den : Int))
      omega
    · show Int.gcd (-(r.num / (Int.gcd r.num r.den : Int)))
        (-(r.den / (Int.gcd r.num r.den : Int))) = 1
      rw [Int.neg_gcd, Int.gcd_neg]
      exact hcop
  · next h =>
    constructor
    · show 0 < r.den / (Int.gcd r.num r.den : Int)
      omega
    · exact hcop

theorem canonize_val {r : Rational} (hd : r.den ≠ 0) :
    ratVal (canonize r) = ratVal r := by
  have hg : Int.gcd r.num r.den ≠ 0 := fun h => hd (Int.gcd_eq_zero_iff.mp h).2
  have hgz : (Int.gcd r.num r.den : Int) ≠ 0 := Int.natCast_ne_zero.mpr hg
  have hn : (Int.gcd r.num r.den : Int) * (r.num / Int.gcd r.num r.den)
      = r.num := Int.mul_ediv_cancel' Int.gcd_dvd_left
  have hdvd : (Int.gcd r.num r.den : Int) * (r.den / Int.gcd r.num r.den)
      = r.den := Int.mul_ediv_cancel' Int.gcd_dvd_right
  have hdz : r.den / (Int.gcd r.num r.den : Int) ≠ 0 := by
    intro h0
    rw [h0, mul_zero] at hdvd
    exact hd hdvd.symm
  set G : Int := (Int.gcd r.num r.den : Int) with hGdef
  set n₀ : Int := r.num / G with hn₀def
  set d₀ : Int := r.den / G with hd₀def
  have key : (n₀ : ℚ) * (r.den : ℚ) = (r.num : ℚ) * (d₀ : ℚ) := by
    have h1 : (G : ℚ) * (n₀ : ℚ) = (r.num : ℚ) := by exact_mod_cast hn
    have h2 : (G : ℚ) * (d₀ : ℚ) = (r.den : ℚ) := by exact_mod_cast hdvd
    calc (n₀ : ℚ) * (r.den : ℚ) = (G : ℚ) * (n₀ : ℚ) * (d₀ : ℚ) := by
          rw [← h2]; ring
      _ = (r.num : ℚ) * (d₀ : ℚ) := by rw [h1]
  have hdQ : ((r.den : ℚ)) ≠ 0 := by exact_mod_cast hd
  have hd₀Q : ((d₀ : ℚ)) ≠ 0 := by exact_mod_cast hdz
  unfold canonize ratVal
  dsimp only
  split
  · next h =>
    show ((-n₀ : Int) : ℚ) / ((-d₀ : Int) : ℚ) = _
    push_cast
    rw [neg_div_neg_eq, div_eq_div_iff hd₀Q hdQ]
    exact key
  · next h =>
    show ((n₀ : Int) : ℚ) / ((d₀ : Int) : ℚ) = _
    rw [div_eq_div_iff hd₀Q hdQ]
    exact key

/-- Uniqueness of the canonical representative: two canonical rationals
denoting the same value are field-wise equal. -/
theorem canonical_val_inj {a b : Rational} (ha : isCanonical a)
    (hb : isCanonical b) (h : ratVal a = ratVal b) : a = b := by
  obtain ⟨had, hag⟩ := ha
  obtain ⟨hbd, hbg⟩ := hb
  have haz : ((a.den : ℚ)) ≠ 0 := by exact_mod_cast had.ne'
  have hbz : ((b.den : ℚ)) ≠ 0 := by exact_mod_cast hbd.ne'
  have hcross : a.num * b.den = b.num * a.den := by
    have := (div_eq_div_iff haz hbz).mp h
    exact_mod_cast this
  have hca : IsCoprime a.num a.den := Int.gcd_eq_one_iff_coprime.mp hag
  have hcb : IsCoprime b.num b.den := Int.gcd_eq_one_iff_coprime.mp hbg
  have h1 : a.den ∣ b.den := by
    have hmul : a.den ∣ a.num * b.den := by
      rw [hcross]; exact dvd_mul_left a.den b.num
    exact hca.symm.dvd_of_dvd_mul_left hmul
  have h2 : b.den ∣ a.den := by
    have hmul : b.den ∣ b.num * a.den := by
      rw [← hcross]; exact dvd_mul_left b.den a.num
    exact hcb.symm.dvd_of_dvd_mul_left hmul
  have hden : a.den = b.den := Int.dvd_antisymm had.le hbd.le h1 h2
  have hnum : a.num = b.num := by
    have := hcross
    rw [hden] at this
    exact mul_right_cancel₀ hbd.ne' this
  cases a; cases b
  simp_all

/-- A canonical pair is a fixed point of `canonize`. -/
theorem canonize_of_canonical {r : Rational} (h : isCanonical r) :
    canonize r = r := by
  have := canonical_val_inj (canonize_canonical h.1.ne') h
    (canonize_val h.1.ne')
  exact this

/-! ## Helper lemmas about the operation results -/

theorem ratMk_ok_iff {n d : Int} {q : Rational} :
    ratMk n d = .ok q ↔ d ≠ 0 ∧ q = canonize ⟨n, d⟩ := by
  unfold ratMk
  split
  · simp_all
  · next h =>
    constructor
    · rintro hq
      cases hq
      exact ⟨h, rfl⟩
    · rintro ⟨-, rfl⟩
      rfl

theorem assign_ok_iff {r : Rational} {n d : Int} {q : Rational} :
    assign r n d = .ok q ↔ d ≠ 0 ∧ q = canonize ⟨n, d⟩ := by
  unfold assign
  split
  · simp_all
  · next h =>
    constructor
    · rintro hq
      cases hq
      exact ⟨h, rfl⟩
    · rintro ⟨-, rfl⟩
      rfl

/-- Adding an integer multiple of the denominator to the numerator
preserves the canonical-form invariant: the denominator is untouched and
co-primality is invariant under this change. -/
theorem addInt_canonical {a : Rational} (ha : isCanonical a) (c : Int) :
    isCanonical (addInt a c) := by
  obtain ⟨hpos, hgcd⟩ := ha
  refine ⟨hpos, ?_⟩
  have hco : IsCoprime a.num a.den := Int.gcd_eq_one_iff_coprime.mp hgcd
  have : IsCoprime (a.num + c * a.den) a.den :=
    IsCoprime.add_mul_right_left_iff.mpr hco
  exact Int.gcd_eq_one_iff_coprime.mpr this

theorem subInt_canonical {a : Rational} (ha : isCanonical a) (c : Int) :
    isCanonical (subInt a c) := by
  have := addInt_canonical ha (-c)
  unfold addInt at this
  unfold subInt
  rw [show a.num - c * a.den = a.num + -c * a.den by ring]
  exact this

theorem incr_canonical {a : Rational} (ha : isCanonical a) :
    isCanonical (incr a) := by
  have := addInt_canonical ha 1
  unfold addInt at this
  unfold incr
  rw [show a.num + a.den = a.num + 1 * a.den by ring]
  exact this

theorem decr_canonical {a : Rational} (ha : isCanonical a) :
    isCanonical (decr a) := by
  have := subInt_canonical ha 1
  unfold subInt at this
  unfold decr
  rw [show a.num - a.den = a.num - 1 * a.den by ring]
  exact this

/-- Every success path of `assignFp` runs through `assign` with a
nonzero denominator, hence canonizes. -/
theorem assignFp_ok_canonical {r : Rational} {f : Fp} {q : Rational}
    (h : assignFp r f = .ok q) : isCanonical q := by
  unfold assignFp at h
  split at h
  · obtain ⟨hd, hq⟩ := assign_ok_iff.mp h
    rw [hq]
    exact canonize_canonical hd
  · split at h
    · split at h
      · split at h
        · exact absurd h (by intro hc; cases hc)
        · obtain ⟨hd, hq⟩ := assign_ok_iff.mp h
          rw [hq]
          exact canonize_canonical hd
      · obtain ⟨hd, hq⟩ := assign_ok_iff.mp h
        rw [hq]
        exact canonize_canonical hd
    · obtain ⟨hd, hq⟩ := assign_ok_iff.mp h
      rw [hq]
      exact canonize_canonical hd

/-- C1: every rational value produced by a successful public operation —
any constructor, assignment, compound arithmetic operator, setter, or
`assign` — is in canonical form: positive denominator and co-prime
numerator/denominator, with a zero numerator forcing denominator `1`.
(`ratMk` is the two-argument constructor; the float constructor
delegates to `assignFp`; `negRat` is unary minus and `invert` is
unary `~`, both routed through the constructor.) -/
theorem c1_canonical_invariant (v c : Int) (r a b : Rational)
    (hr : isCanonical r) (ha : isCanonical a) (hb : isCanonical b) :
    (∀ n d q, ratMk n d = .ok q → isCanonical q) ∧
    isCanonical (assignInt v) ∧
    isCanonical (addRat a b) ∧
    isCanonical (subRat a b) ∧
    isCanonical (mulRat a b) ∧
    (∀ q, divRat a b = .ok q → isCanonical q) ∧
    isCanonical (addInt a c) ∧
    isCanonical (subInt a c) ∧
    isCanonical (mulInt a c) ∧
    (∀ q, divInt a c = .ok q → isCanonical q) ∧
    isCanonical (setNumerator r v) ∧
    (∀ q, setDenominator r v = .ok q → isCanonical q) ∧
    (∀ n d q, assign r n d = .ok q → isCanonical q) ∧
    (∀ f q, assignFp r f = .ok q → isCanonical q) ∧
    (∀ q, negRat a = .ok q → isCanonical q) ∧
    (∀ q, invert a = .ok q → isCanonical q) ∧
    (∀ q, isCanonical q → q.num = 0 → q.den = 1) := by
  have had : a.den ≠ 0 := ha.1.ne'
  have hbd : b.den ≠ 0 := hb.1.ne'
  have hrd : r.den ≠ 0 := hr.1.ne'
  refine ⟨?_, ?_, ?_, ?_, ?_, ?_, ?_, ?_, ?_, ?_, ?_, ?_, ?_, ?_, ?_, ?_, ?_⟩
  · intro n d q hq
    obtain ⟨hd, rfl⟩ := ratMk_ok_iff.mp hq
    exact canonize_canonical hd
  · exact ⟨one_pos, by simp [assignInt, Int.gcd]⟩
  · exact canonize_canonical (mul_ne_zero had hbd)
  · exact canonize_canonical (mul_ne_zero had hbd)
  · exact canonize_canonical (mul_ne_zero had hbd)
  · intro q hq
    unfold divRat at hq
    split at hq
    · cases hq
    · next hbn =>
      cases hq
      exact canonize_canonical (mul_ne_zero had hbn)
  · exact addInt_canonical ha c
  · exact subInt_canonical ha c
  · exact canonize_canonical had
  · intro q hq
    unfold divInt at hq
    split at hq
    · cases hq
    · next hc =>
      cases hq
      exact canonize_canonical (mul_ne_zero had hc)
  · exact canonize_canonical hrd
  · intro q hq
    unfold setDenominator at hq
    split at hq
    · cases hq
    · next hv =>
      cases hq
      exact canonize_canonical hv
  · intro n d q hq
    obtain ⟨hd, rfl⟩ := assign_ok_iff.mp hq
    exact canonize_canonical hd
  · intro f q hq
    exact assignFp_ok_canonical hq
  · intro q hq
    obtain ⟨hd, rfl⟩ := ratMk_ok_iff.mp hq
    exact canonize_canonical hd
  · intro q hq
    obtain ⟨hd, rfl⟩ := ratMk_ok_iff.mp hq
    exact canonize_canonical hd
  · intro q hq h0
    obtain ⟨hpos, hgcd⟩ := hq
    rw [h0] at hgcd
    have : q.den.natAbs = 1 := by
      have := Int.gcd_zero_left q.den
      omega
    omega

/-- Witness for C1 at concrete canonical inputs. -/
theorem c1_canonical_invariant_witness :
    isCanonical ⟨2, 3⟩ ∧ isCanonical ⟨1, 2⟩ ∧ isCanonical ⟨-5, 4⟩ ∧
    isCanonical (addRat ⟨1, 2⟩ ⟨-5, 4⟩) := by
  refine ⟨by decide, by decide, by decide, ?_⟩
  exact (c1_canonical_invariant 7 (-2) ⟨2, 3⟩ ⟨1, 2⟩ ⟨-5, 4⟩
    (by decide) (by decide) (by decide)).2.2.1

/-- C10: on a canonical rational, pre/post increment and decrement and
the compound assignment of a bare integer through `+=`/`-=` add an
integer multiple of the denominator to the numerator, leave the
denominator unchanged, and the result is still canonical even though
these operations do not call `canonize`. -/
theorem c10_int_shift_canonical (a : Rational) (c : Int)
    (ha : isCanonical a) :
    ((incr a).den = a.den ∧ (∃ k, (incr a).num = a.num + k * a.den) ∧
      isCanonical (incr a)) ∧
    ((decr a).den = a.den ∧ (∃ k, (decr a).num = a.num + k * a.den) ∧
      isCanonical (decr a)) ∧
    ((addInt a c).den = a.den ∧
      (∃ k, (addInt a c).num = a.num + k * a.den) ∧
      isCanonical (addInt a c)) ∧
    ((subInt a c).den = a.den ∧
      (∃ k, (subInt a c).num = a.num + k * a.den) ∧
      isCanonical (subInt a c)) := by
  refine ⟨⟨rfl, ⟨1, by unfold incr; ring⟩, incr_canonical ha⟩,
    ⟨rfl, ⟨-1, by unfold decr; ring⟩, decr_canonical ha⟩,
    ⟨rfl, ⟨c, by unfold addInt; ring⟩, addInt_canonical ha c⟩,
    ⟨rfl, ⟨-c, by unfold subInt; ring⟩, subInt_canonical ha c⟩⟩

/-- Witness for C10 at `a = 1/2`, `c = 3`. -/
theorem c10_int_shift_canonical_witness :
    isCanonical ⟨1, 2⟩ ∧ isCanonical (incr ⟨1, 2⟩) := by
  refine ⟨by decide, ?_⟩
  exact (c10_int_shift_canonical ⟨1, 2⟩ 3 (by decide)).1.2.2

/-- C5: a zero denominator supplied to the two-argument constructor, to
the denominator setter, or to `assign`, and division by a rational with
zero numerator or by the bare integer zero, always fail with the
corresponding domain error (and hence produce no value at all, so no
invariant-violating value); in particular `rational(1, 0)` fails.  The
error payload of the mutating forms carries the unchanged field
state. -/
theorem c5_zero_inputs_fail (n : Int) (r a b : Rational)
    (hb : b.num = 0) :
    ratMk n 0 = .error "Denominator can not be zero." ∧
    setDenominator r 0 = .error ("Denominator can not be zero.", r) ∧
    assign r n 0 = .error ("Denominator can not be zero.", r) ∧
    divRat a b = .error ("Division by zero.", a) ∧
    divInt a 0 = .error ("Division by zero.", a) ∧
    ratMk 1 0 = .error "Denominator can not be zero." := by
  refine ⟨rfl, rfl, rfl, ?_, rfl, rfl⟩
  unfold divRat
  rw [if_pos hb]

/-- Witness for C5 at concrete inputs. -/
theorem c5_zero_inputs_fail_witness :
    (⟨0, 1⟩ : Rational).num = 0 ∧
    divRat ⟨2, 3⟩ ⟨0, 1⟩ = .error ("Division by zero.", ⟨2, 3⟩) := by
  refine ⟨rfl, ?_⟩
  exact (c5_zero_inputs_fail 4 ⟨7, 5⟩ ⟨2, 3⟩ ⟨0, 1⟩ rfl).2.2.2.1

/-- C6: `operator+=` on two rationals computes the raw combination
`(ad + bc) / (bd)` and then canonizes: structurally it is exactly
`canonize` of the raw pair, its value is the exact rational sum, the
result is canonical, and `1/3 + 1/6` yields the canonical pair
`(1, 2)`. -/
theorem c6_addition (a b : Rational) (ha : isCanonical a)
    (hb : isCanonical b) :
    addRat a b = canonize ⟨a.num * b.den + a.den * b.num,
      a.den * b.den⟩ ∧
    ratVal (addRat a b) = ratVal a + ratVal b ∧
    isCanonical (addRat a b) ∧
    addRat ⟨1, 3⟩ ⟨1, 6⟩ = ⟨1, 2⟩ := by
  have had : a.den ≠ 0 := ha.1.ne'
  have hbd : b.den ≠ 0 := hb.1.ne'
  have hraw : (Rational.mk (a.num * b.den + a.den * b.num)
      (a.den * b.den)).den ≠ 0 := mul_ne_zero had hbd
  refine ⟨rfl, ?_, canonize_canonical hraw, by decide⟩
  unfold addRat
  rw [canonize_val hraw]
  unfold ratVal
  push_cast
  rw [div_add_div _ _ (by exact_mod_cast had) (by exact_mod_cast hbd)]

/-- Witness for C6 at `1/3` and `1/6`. -/
theorem c6_addition_witness :
    isCanonical ⟨1, 3⟩ ∧ isCanonical ⟨1, 6⟩ ∧
    addRat ⟨1, 3⟩ ⟨1, 6⟩ = ⟨1, 2⟩ := by
  refine ⟨by decide, by decide, ?_⟩
  exact (c6_addition ⟨1, 3⟩ ⟨1, 6⟩ (by decide) (by decide)).2.2.2

/-! ## Ordering lemmas -/

theorem cmp3_eq_lt_iff {x y : Int} : cmp3 x y = .lt ↔ x < y := by
  unfold cmp3
  split_ifs with h1 h2
  all_goals simp_all

theorem cmp3_eq_eq_iff {x y : Int} : cmp3 x y = .eq ↔ x = y := by
  unfold cmp3
  split_ifs with h1 h2
  all_goals simp_all
  all_goals omega

theorem cmp3_eq_gt_iff {x y : Int} : cmp3 x y = .gt ↔ y < x := by
  unfold cmp3
  split_ifs with h1 h2
  all_goals simp_all
  all_goals omega

/-- Under canonicity, equal cross products force field-wise equality
(uniqueness of the canonical representative, in cross-product form). -/
theorem cross_eq_canonical_eq {a b : Rational} (ha : isCanonical a)
    (hb : isCanonical b) (h : a.num * b.den = a.den * b.num) : a = b := by
  apply canonical_val_inj ha hb
  unfold ratVal
  rw [div_eq_div_iff (by exact_mod_cast ha.1.ne')
    (by exact_mod_cast hb.1.ne')]
  have hq : (a.num : ℚ) * (b.den : ℚ) = (a.den : ℚ) * (b.num : ℚ) := by
    exact_mod_cast h
  rw [hq]
  ring

theorem ratCmp_lt_iff {a b : Rational} :
    ratCmp a b = .lt ↔ a.num * b.den < a.den * b.num := by
  unfold ratCmp
  split_ifs with h
  · subst h
    constructor
    · intro hc
      cases hc
    · intro hlt
      exact absurd (mul_comm a.num a.den) (ne_of_lt hlt)
  · rw [cmp3_eq_lt_iff]

theorem ratCmp_gt_iff {a b : Rational} :
    ratCmp a b = .gt ↔ a.den * b.num < a.num * b.den := by
  unfold ratCmp
  split_ifs with h
  · subst h
    constructor
    · intro hc
      cases hc
    · intro hlt
      exact absurd (mul_comm a.den a.num) (ne_of_lt hlt)
  · rw [cmp3_eq_gt_iff]

theorem ratCmp_eq_iff {a b : Rational} (ha : isCanonical a)
    (hb : isCanonical b) : ratCmp a b = .eq ↔ a = b := by
  unfold ratCmp
  split_ifs with h
  · simp [h]
  · rw [cmp3_eq_eq_iff]
    constructor
    · intro hcross
      exact absurd (cross_eq_canonical_eq ha hb hcross) h
    · intro hab
      exact absurd hab h

/-- Cross-multiplied strict comparison is transitive when all
denominators are positive. -/
theorem cross_lt_trans {a b c : Rational} (ha : isCanonical a)
    (hb : isCanonical b) (hc : isCanonical c)
    (h1 : a.num * b.den < a.den * b.num)
    (h2 : b.num * c.den < b.den * c.num) :
    a.num * c.den < a.den * c.num := by
  have hbp : (0 : Int) < b.den := hb.1
  have hap : (0 : Int) < a.den := ha.1
  have hcp : (0 : Int) < c.den := hc.1
  have h1' : a.num * b.den * c.den < a.den * b.num * c.den :=
    mul_lt_mul_of_pos_right h1 hcp
  have h2' : a.den * (b.num * c.den) < a.den * (b.den * c.num) :=
    mul_lt_mul_of_pos_left h2 hap
  have hchain : a.num * c.den * b.den < a.den * c.num * b.den := by
    nlinarith [h1', h2']
  exact lt_of_mul_lt_mul_right hchain hbp.le

/-- C7: `operator<=>` on two rationals short-circuits to `equal` under
field-wise `==`, otherwise compares `numerator₁ * denominator₂` with
`denominator₁ * numerator₂`; on canonical values this is a total order:
exactly one of `a < b`, `a == b`, `a > b` holds, the strict order is
transitive, and concretely `3/2 > 1/2` and `-3/2 < -1/2`. -/
theorem c7_total_order (a b c : Rational) (ha : isCanonical a)
    (hb : isCanonical b) (hc : isCanonical c) :
    (a = b → ratCmp a b = .eq) ∧
    (a ≠ b → ratCmp a b = cmp3 (a.num * b.den) (a.den * b.num)) ∧
    ((ratCmp a b = .lt ∧ a ≠ b ∧ ratCmp a b ≠ .gt) ∨
      (ratCmp a b ≠ .lt ∧ a = b ∧ ratCmp a b ≠ .gt) ∨
      (ratCmp a b ≠ .lt ∧ a ≠ b ∧ ratCmp a b = .gt)) ∧
    (ratCmp a b = .lt → ratCmp b c = .lt → ratCmp a c = .lt) ∧
    (ratCmp a b = .gt → ratCmp b c = .gt → ratCmp a c = .gt) ∧
    ratCmp ⟨3, 2⟩ ⟨1, 2⟩ = .gt ∧
    ratCmp ⟨-3, 2⟩ ⟨-1, 2⟩ = .lt := by
  refine ⟨?_, ?_, ?_, ?_, ?_, by decide, by decide⟩
  · intro h
    unfold ratCmp
    rw [if_pos h]
  · intro h
    unfold ratCmp
    rw [if_neg h]
  · rcases lt_trichotomy (a.num * b.den) (a.den * b.num) with h | h | h
    · refine .inl ⟨(ratCmp_lt_iff).mpr h, ?_, ?_⟩
      · rintro rfl
        exact absurd (mul_comm a.num a.den) (ne_of_lt h)
      · intro hgt
        exact absurd ((ratCmp_gt_iff).mp hgt) (by omega)
    · have hab : a = b := cross_eq_canonical_eq ha hb h
      refine .inr (.inl ⟨?_, hab, ?_⟩)
      · intro hlt
        exact absurd ((ratCmp_lt_iff).mp hlt) (by omega)
      · intro hgt
        exact absurd ((ratCmp_gt_iff).mp hgt) (by omega)
    · refine .inr (.inr ⟨?_, ?_, (ratCmp_gt_iff).mpr h⟩)
      · intro hlt
        exact absurd ((ratCmp_lt_iff).mp hlt) (by omega)
      · rintro rfl
        exact absurd (mul_comm a.den a.num) (ne_of_lt h)
  · intro h1 h2
    exact (ratCmp_lt_iff).mpr
      (cross_lt_trans ha hb hc ((ratCmp_lt_iff).mp h1)
        ((ratCmp_lt_iff).mp h2))
  · intro h1 h2
    have hab : b.num * a.den < b.den * a.num := by
      have := (ratCmp_gt_iff).mp h1
      linarith [mul_comm a.den b.num, mul_comm a.num b.den]
    have hbc : c.num * b.den < c.den * b.num := by
      have := (ratCmp_gt_iff).mp h2
      linarith [mul_comm b.den c.num, mul_comm b.num c.den]
    have := cross_lt_trans hc hb ha hbc hab
    apply (ratCmp_gt_iff).mpr
    linarith [mul_comm c.num a.den, mul_comm c.den a.num]

/-- Witness for C7 at `3/2`, `1/2`, `-3/2`. -/
theorem c7_total_order_witness :
    isCanonical ⟨3, 2⟩ ∧ isCanonical ⟨1, 2⟩ ∧ isCanonical ⟨-3, 2⟩ ∧
    ratCmp ⟨3, 2⟩ ⟨1, 2⟩ = .gt := by
  refine ⟨by decide, by decide, by decide, ?_⟩
  exact (c7_total_order ⟨3, 2⟩ ⟨1, 2⟩ ⟨-3, 2⟩ (by decide) (by decide)
    (by decide)).2.2.2.2.2.1

/-- Multiplication computes the exact product of the denoted values. -/
theorem mulRat_val {a b : Rational} (ha : a.den ≠ 0) (hb : b.den ≠ 0) :
    ratVal (mulRat a b) = ratVal a * ratVal b := by
  unfold mulRat
  rw [canonize_val (mul_ne_zero ha hb)]
  unfold ratVal
  push_cast
  rw [div_mul_div_comm]

/-- C8: for canonical `a` and `b` with `b`'s numerator nonzero, the
quotient `a / b` (which succeeds) multiplied back by `b` is field-wise
equal to `a`.  (Base-type overflow is out of scope: the base type is
modelled as unbounded `ℤ`.) -/
theorem c8_div_mul_roundtrip (a b q : Rational) (ha : isCanonical a)
    (hb : isCanonical b) (hbn : b.num ≠ 0)
    (hq : divRat a b = .ok q) : mulRat q b = a := by
  have had : a.den ≠ 0 := ha.1.ne'
  have hbd : b.den ≠ 0 := hb.1.ne'
  unfold divRat at hq
  rw [if_neg hbn] at hq
  cases hq
  have hraw : (Rational.mk (a.num * b.den) (a.den * b.num)).den ≠ 0 :=
    mul_ne_zero had hbn
  have hqc : isCanonical (canonize ⟨a.num * b.den, a.den * b.num⟩) :=
    canonize_canonical hraw
  have hqval : ratVal (canonize ⟨a.num * b.den, a.den * b.num⟩)
      = ratVal a / ratVal b := by
    rw [canonize_val hraw]
    unfold ratVal
    have h1 : ((a.den : ℚ)) ≠ 0 := by exact_mod_cast had
    have h2 : ((b.num : ℚ)) ≠ 0 := by exact_mod_cast hbn
    have h3 : ((b.den : ℚ)) ≠ 0 := by exact_mod_cast hbd
    show ((a.num * b.den : Int) : ℚ) / ((a.den * b.num : Int) : ℚ) = _
    push_cast
    field_simp
  have hbval : ratVal b ≠ 0 := by
    unfold ratVal
    exact div_ne_zero (by exact_mod_cast hbn) (by exact_mod_cast hbd)
  have key : ratVal (mulRat (canonize ⟨a.num * b.den, a.den * b.num⟩) b)
      = ratVal a := by
    rw [mulRat_val hqc.1.ne' hbd, hqval, div_mul_cancel₀ _ hbval]
  exact canonical_val_inj
    (by exact canonize_canonical (mul_ne_zero hqc.1.ne' hbd)) ha key

/-- Witness for C8 at `a = 1/2`, `b = 2/3`. -/
theorem c8_div_mul_roundtrip_witness :
    isCanonical ⟨1, 2⟩ ∧ isCanonical ⟨2, 3⟩ ∧
    (⟨2, 3⟩ : Rational).num ≠ 0 ∧
    divRat ⟨1, 2⟩ ⟨2, 3⟩ = .ok ⟨3, 4⟩ ∧
    mulRat ⟨3, 4⟩ ⟨2, 3⟩ = ⟨1, 2⟩ := by
  refine ⟨by decide, by decide, by decide, rfl, ?_⟩
  exact c8_div_mul_roundtrip ⟨1, 2⟩ ⟨2, 3⟩ ⟨3, 4⟩ (by decide) (by decide)
    (by decide) rfl

/-- C4 counterexample: `operator~` on the canonical rational `0/1`
throws the zero-denominator domain error at the point of the operation,
because `return {denominator_, numerator_};` list-initializes the result
through the validating two-argument constructor.  This refutes the claim
that the invert operator swaps without failing. -/
theorem c4_invert_counterexample :
    isCanonical ⟨0, 1⟩ ∧
    invert ⟨0, 1⟩ = .error "Denominator can not be zero." := by
  exact ⟨by decide, rfl⟩

/-- C4 amended: the invert operator delegates to the validating
two-argument constructor, so on a rational with zero numerator it fails
with the zero-denominator domain error, and on a rational with nonzero
numerator it returns the swapped pair, canonized. -/
theorem c4_invert (a : Rational) :
    (a.num = 0 → invert a = .error "Denominator can not be zero.") ∧
    (a.num ≠ 0 → invert a = .ok (canonize ⟨a.den, a.num⟩)) := by
  constructor
  · intro h
    unfold invert ratMk
    rw [if_pos h]
  · intro h
    unfold invert ratMk
    rw [if_neg h]

/-- Witness for C4 at `2/3` (and `0/1` for the failing clause). -/
theorem c4_invert_witness :
    ((2 : Int) ≠ 0) ∧ invert ⟨2, 3⟩ = .ok (canonize ⟨3, 2⟩) ∧
    ((0 : Int) = 0) ∧ invert ⟨0, 5⟩ = .error "Denominator can not be zero." := by
  refine ⟨by decide, ?_, rfl, ?_⟩
  · exact (c4_invert ⟨2, 3⟩).2 (by decide)
  · exact (c4_invert ⟨0, 5⟩).1 rfl

/-- C3 counterexample: assigning the smallest positive subnormal double
`2^-1074` (decomposition `m = 2^52`, `e = -1126`) to the rational `1/1`
fails with the underflow domain error, but only after both fields were
overwritten: the observable state at the throw is `(0, 2^1023)`, not the
pre-call state `(1, 1)`.  This refutes the claim that every failing
operation leaves the observable state unchanged — specifically for the
float-assign underflow case the claim itself singles out. -/
theorem c3_counterexample :
    Fp.wf ⟨2 ^ 52, -1126⟩ ∧
    assignFp ⟨1, 1⟩ ⟨2 ^ 52, -1126⟩ =
      .error ("Value evaluates to zero due to being too small.",
        ⟨0, 2 ^ 1023⟩) ∧
    (⟨0, 2 ^ 1023⟩ : Rational) ≠ ⟨1, 1⟩ := by
  refine ⟨?_, ?_, ?_⟩
  · refine ⟨?_, ?_, by norm_num, by norm_num, ?_⟩
    · rw [show ((2:Int) ^ 52).natAbs = 2 ^ 52 by
        rw [Int.natAbs_pow]; rfl]
    · rw [show ((2:Int) ^ 52).natAbs = 2 ^ 52 by
        rw [Int.natAbs_pow]; rfl]
      norm_num
    · intro h
      rw [show ((-1074 : Int) - -1126).toNat = 52 by decide]
  · unfold assignFp
    dsimp only
    rw [if_neg (by norm_num : ¬ (0:Int) < -1126),
      if_pos (by norm_num : (-1126:Int) < 0),
      if_pos (by norm_num : (1023:Int) ≤ -(-1126))]
    have hcond : Int.tdiv ((2:Int) ^ 52) (2 ^ ((-(-1126:Int)) - 1023).toNat)
        = 0 := by
      rw [show ((-(-1126:Int)) - 1023).toNat = 103 by decide]
      rw [Int.tdiv_eq_ediv (by positivity) (by positivity)]
      exact Int.ediv_eq_zero_of_lt (by positivity) (by norm_num)
    rw [if_pos hcond, hcond]
  · intro h
    have := congrArg Rational.num h
    norm_num at this

/-- C3 amended: every throwing mutator except the floating-point
`assign` validates before mutating, so its error payload carries the
unchanged pre-call state; the floating-point `assign` alone can fail
only through the underflow check, at which point both fields have
already been overwritten and the observable state is `(0, 2^1023)`
regardless of the pre-call state. -/
theorem c3_error_state (r a b : Rational) (n v c : Int) (f : Fp)
    (msg : String) (s : Rational) :
    (divRat a b = .error (msg, s) → s = a) ∧
    (divInt a c = .error (msg, s) → s = a) ∧
    (setDenominator r v = .error (msg, s) → s = r) ∧
    (assign r n v = .error (msg, s) → s = r) ∧
    (assignFp r f = .error (msg, s) →
      msg = "Value evaluates to zero due to being too small." ∧
      s = ⟨0, 2 ^ 1023⟩) := by
  refine ⟨?_, ?_, ?_, ?_, ?_⟩
  · intro h
    unfold divRat at h
    split at h
    · cases h
      rfl
    · cases h
  · intro h
    unfold divInt at h
    split at h
    · cases h
      rfl
    · cases h
  · intro h
    unfold setDenominator at h
    split at h
    · cases h
      rfl
    · cases h
  · intro h
    unfold assign at h
    split at h
    · cases h
      rfl
    · cases h
  · intro h
    unfold assignFp at h
    split at h
    · unfold assign at h
      rw [if_neg (by norm_num : (1:Int) ≠ 0)] at h
      cases h
    · split at h
      · split at h
        · split at h
          · next hc =>
            simp only [Except.error.injEq, Prod.mk.injEq] at h
            obtain ⟨hm, hs⟩ := h
            exact ⟨hm.symm, by rw [← hs, hc]⟩
          · unfold assign at h
            rw [if_neg (by positivity : ((2:Int) ^ 1023) ≠ 0)] at h
            cases h
        · unfold assign at h
          rw [if_neg (by positivity : ((2:Int) ^ (-f.e).toNat) ≠ 0)] at h
          cases h
      · unfold assign at h
        rw [if_neg (by norm_num : (1:Int) ≠ 0)] at h
        cases h

/-- Witness for C3 amended, at the division-by-zero error on `2/3`. -/
theorem c3_error_state_witness :
    divRat ⟨2, 3⟩ ⟨0, 1⟩ = .error ("Division by zero.", ⟨2, 3⟩) ∧
    (⟨2, 3⟩ : Rational) = ⟨2, 3⟩ := by
  refine ⟨rfl, ?_⟩
  exact (c3_error_state ⟨1, 1⟩ ⟨2, 3⟩ ⟨0, 1⟩ 0 0 0 ⟨2 ^ 52, -1126⟩
    "Division by zero." ⟨2, 3⟩).1 rfl

/-- C2 counterexample: the double `(2^52 + 3) * 2^-1024` (a valid
subnormal: decomposition `m = 2^52 + 3`, `e = -1024`) is finite and its
conversion does not underflow to a zero numerator, yet the deep-negative-
exponent path divides the numerator by `2^1` with a truncating integer
division, losing the low-order bit: the stored rational is
`(2^51 + 1) / 2^1023`, whose value differs from the input, so no
evaluation of it can reproduce the input bit-for-bit.  This refutes the
exact-round-trip claim. -/
theorem c2_counterexample :
    Fp.wf ⟨2 ^ 52 + 3, -1024⟩ ∧
    assignFp ⟨0, 1⟩ ⟨2 ^ 52 + 3, -1024⟩ = .ok ⟨2 ^ 51 + 1, 2 ^ 1023⟩ ∧
    ratVal ⟨2 ^ 51 + 1, 2 ^ 1023⟩ ≠ Fp.val ⟨2 ^ 52 + 3, -1024⟩ := by
  refine ⟨?_, ?_, ?_⟩
  · exact ⟨by decide, by decide, by norm_num, by norm_num, by norm_num⟩
  · unfold assignFp
    dsimp only
    rw [if_neg (by norm_num : ¬ (0:Int) < -1024),
      if_pos (by norm_num : (-1024:Int) < 0),
      if_pos (by norm_num : (1023:Int) ≤ -(-1024))]
    have hexp : ((-(-1024:Int)) - 1023).toNat = 1 := by decide
    have htd : Int.tdiv ((2:Int) ^ 52 + 3) (2 ^ ((-(-1024:Int)) - 1023).toNat)
        = 2 ^ 51 + 1 := by
      rw [hexp]
      rw [Int.tdiv_eq_ediv (by positivity) (by positivity)]
      decide
    rw [htd, if_neg (by positivity : ((2:Int) ^ 51 + 1) ≠ 0)]
    unfold assign
    rw [if_neg (by positivity : ((2:Int) ^ 1023) ≠ 0)]
    rw [canonize_of_canonical ⟨by positivity, by norm_num⟩]
  · unfold ratVal Fp.val
    dsimp only
    intro h
    rw [show ((-1024) : Int) = -(1024 : ℕ) by norm_num] at h
    rw [zpow_neg, zpow_natCast] at h
    push_cast at h
    rw [div_eq_iff (by positivity : ((2:ℚ)^1023) ≠ 0)] at h
    field_simp at h
    norm_num at h

/-- Rewriting a negative binary scale into the denominator. -/
theorem inv_two_pow_toNat {e : Int} (he : e ≤ 0) :
    ((2:ℚ) ^ (-e).toNat)⁻¹ = (2:ℚ) ^ e := by
  rw [← zpow_natCast (2:ℚ) (-e).toNat, Int.toNat_of_nonneg (by omega),
    ← zpow_neg, neg_neg]

/-- Rewriting a nonnegative binary scale into the numerator. -/
theorem two_pow_toNat {e : Int} (he : 0 ≤ e) :
    ((2:ℚ) ^ e.toNat) = (2:ℚ) ^ e := by
  rw [← zpow_natCast (2:ℚ) e.toNat, Int.toNat_of_nonneg he]

/-- C2 amended: the conversion from a finite nonzero floating-point
value is exact — the stored canonical rational denotes exactly the
input's value `m * 2^e` — whenever the adjusted exponent stays at or
above `-(maximum_exponent - 1) = -1023`, so that the lossy truncating
division of the deep-negative branch divides by `2^0 = 1`.  (Below that
threshold the division can discard low-order bits, as the
counterexample shows.) -/
theorem c2_exact_above_threshold (r : Rational) (f : Fp)
    (hm : f.m ≠ 0) (hlo : -1023 ≤ f.e) (hhi : f.e ≤ 971) :
    ∃ q, assignFp r f = .ok q ∧ isCanonical q ∧ ratVal q = Fp.val f := by
  unfold assignFp
  rcases lt_trichotomy 0 f.e with he | he | he
  · rw [if_pos he]
    refine ⟨canonize ⟨f.m * 2 ^ f.e.toNat, 1⟩, ?_, ?_, ?_⟩
    · unfold assign
      rw [if_neg (by norm_num : (1:Int) ≠ 0)]
    · exact canonize_canonical (by norm_num)
    · rw [canonize_val (by norm_num)]
      unfold ratVal Fp.val
      push_cast
      rw [div_one, two_pow_toNat he.le]
  · rw [if_neg (by omega), if_neg (by omega)]
    refine ⟨canonize ⟨f.m, 1⟩, ?_, ?_, ?_⟩
    · unfold assign
      rw [if_neg (by norm_num : (1:Int) ≠ 0)]
    · exact canonize_canonical (by norm_num)
    · rw [canonize_val (by norm_num)]
      unfold ratVal Fp.val
      push_cast
      rw [div_one, ← he, zpow_zero, mul_one]
  · rw [if_neg (by omega), if_pos he]
    by_cases hbig : (1023:Int) ≤ -f.e
    · have hE : f.e = -1023 := by omega
      rw [if_pos hbig]
      have hexp : ((-f.e) - 1023).toNat = 0 := by
        rw [hE]
        decide
      rw [hexp]
      rw [show ((2:Int) ^ (0:Nat)) = 1 by norm_num, Int.tdiv_one]
      rw [if_neg hm]
      refine ⟨canonize ⟨f.m, 2 ^ 1023⟩, ?_, ?_, ?_⟩
      · unfold assign
        rw [if_neg (by positivity : ((2:Int) ^ 1023) ≠ 0)]
      · exact canonize_canonical (by positivity)
      · rw [canonize_val (by positivity)]
        unfold ratVal Fp.val
        push_cast
        rw [div_eq_mul_inv]
        congr 1
        have hT : (1023:ℕ) = (-f.e).toNat := by
          rw [hE]
          rfl
        rw [hT]
        exact inv_two_pow_toNat he.le
    · rw [if_neg hbig]
      refine ⟨canonize ⟨f.m, 2 ^ (-f.e).toNat⟩, ?_, ?_, ?_⟩
      · unfold assign
        rw [if_neg (by positivity : ((2:Int) ^ (-f.e).toNat) ≠ 0)]
      · exact canonize_canonical (by positivity)
      · rw [canonize_val (by positivity)]
        unfold ratVal Fp.val
        push_cast
        rw [div_eq_mul_inv]
        congr 1
        exact inv_two_pow_toNat he.le

/-- Witness for C2 amended at the double `3 * 2^-2 = 0.75`
(decomposition scaled small for readability: `m = 3`, `e = -2`). -/
theorem c2_exact_above_threshold_witness :
    ((3:Int) ≠ 0) ∧ ((-1023:Int) ≤ -2) ∧ ((-2:Int) ≤ 971) ∧
    (∃ q, assignFp ⟨0, 1⟩ ⟨3, -2⟩ = .ok q ∧ isCanonical q ∧
      ratVal q = Fp.val ⟨3, -2⟩) := by
  refine ⟨by norm_num, by norm_num, by norm_num, ?_⟩
  exact c2_exact_above_threshold ⟨0, 1⟩ ⟨3, -2⟩ (by norm_num)
    (by norm_num) (by norm_num)

/-- C9 counterexample: `pow` on the rational `2/1` with power `-1`
routes the integer arguments through the double-precision `std::pow`;
the exact result `2^-1 = 0.5` is truncated to `0` by the conversion back
to the integer type, so the constructed rational is `0/1` — its
numerator is not the numerator raised to the `-1`-st power (which is
`1/2`), refuting the claim for negative powers. -/
theorem c9_pow_counterexample :
    pow ⟨2, 1⟩ (-1) = .ok ⟨0, 1⟩ ∧
    ((⟨0, 1⟩ : Rational).num : ℚ) ≠ (((⟨2, 1⟩ : Rational).num : ℚ)) ^ (-1 : Int) := by
  constructor
  · rfl
  · intro h
    rw [show ((-1) : Int) = -(1 : ℕ) by norm_num, zpow_neg,
      zpow_natCast] at h
    norm_num at h

/-- C9 amended: for a canonical rational and a nonnegative integer
power whose exact numerator and denominator powers stay within the
exactly-representable range of the double-precision routine, `pow`
returns exactly the pair of independent integer powers; the pair is
already co-prime (powers of co-prime integers), so the constructor's
canonize is the identity on it.  For negative powers the floating-point
results are truncated by the integer conversion and the claim fails. -/
theorem c9_pow_exact (v : Rational) (p : Int) (hv : isCanonical v)
    (hp : 0 ≤ p)
    (hnum : v.num.natAbs ^ p.toNat ≤ 2 ^ 53)
    (hden : v.den.natAbs ^ p.toNat ≤ 2 ^ 53) :
    pow v p = .ok ⟨v.num ^ p.toNat, v.den ^ p.toNat⟩ := by
  unfold pow cppPow
  rw [if_pos hp, if_pos hp]
  unfold ratMk
  rw [if_neg (pow_ne_zero p.toNat hv.1.ne')]
  have hcan : isCanonical ⟨v.num ^ p.toNat, v.den ^ p.toNat⟩ := by
    refine ⟨pow_pos hv.1 p.toNat, ?_⟩
    show Int.gcd (v.num ^ p.toNat) (v.den ^ p.toNat) = 1
    unfold Int.gcd
    rw [Int.natAbs_pow, Int.natAbs_pow]
    exact Nat.Coprime.pow _ _ hv.2
  rw [canonize_of_canonical hcan]

/-- Witness for C9 amended at `(2/3)^2 = 4/9`. -/
theorem c9_pow_exact_witness :
    isCanonical ⟨2, 3⟩ ∧ ((0:Int) ≤ 2) ∧
    ((2:Int).natAbs ^ (2:Int).toNat ≤ 2 ^ 53) ∧
    ((3:Int).natAbs ^ (2:Int).toNat ≤ 2 ^ 53) ∧
    pow ⟨2, 3⟩ 2 = .ok ⟨4, 9⟩ := by
  refine ⟨by decide, by norm_num, by decide, by decide, ?_⟩
  have h := c9_pow_exact ⟨2, 3⟩ 2 (by decide) (by norm_num)
    (by decide) (by decide)
  rw [h]
  rfl

end RationalSpec
